import Mathlib

/-!
Shallow embedding of the DRIP (dividend reinvestment) simulator from
`src/drip_app.py`, together with theorems settling the specification claims.

Modelling conventions:
* Calendar dates are natural numbers counting days from an epoch chosen so
  that day 0 is a Monday (weekday d = d % 7, 0 = Monday, 5 = Saturday,
  6 = Sunday).  2024-01-01 was a Monday, so in concrete scenarios day n is
  2024-01-01 plus n days.
* Intraday timestamps are minutes after midnight, exchange-local
  (12:00 = 720, 13:00 = 780).
* The program's numbers are numpy.float64 scalars (pandas extraction),
  modelled as exact rationals.  Numpy float division never raises: a zero
  divisor silently yields ±inf or NaN (with a RuntimeWarning), values that
  have no rational representative.  `npdiv` models that outcome exactly at
  a division site; the run functions instead use `pydiv`, which flags such
  a division with `.error .nonfinite` to mark the point where the program's
  values leave the rational domain and the model stops tracking them — the
  flag is a domain marker of the model, not an error path of the program.
* The market-data provider is a pair of inputs: the daily history list
  (`hist_daily` in the source) and a function from a day to that day's
  hourly bars (`ticker.history(..., interval="1h")` in the source).
-/

namespace Drip

/-- Daily bar as produced by `ticker.history(..., actions=True)`: one row per
trading day with columns Open, Close and Dividends (0 when no dividend). -/
structure DailyBar where
  date : Nat
  Open : ℚ
  Close : ℚ
  Dividends : ℚ
deriving DecidableEq

/-- Hourly bar from `ticker.history(..., interval="1h")`: a timestamp
(minutes after midnight, exchange-local) and the bar Open price. -/
structure HourBar where
  ts : Nat
  Open : ℚ
deriving DecidableEq

/-- Conditions under which the rational model stops.  `dataUnavailable` is
the empty-history branch of line 27 (a real program branch);
`unresolvedPrice` the (unreachable inside the loop) case where no fallback
tier yields a price; `nonfinite` marks a division by zero, whose value in
the real program is a silently produced non-finite numpy float (±inf or
NaN) that no rational can represent — the program itself does not stop
there. -/
inductive SimError where
  | dataUnavailable
  | nonfinite
  | unresolvedPrice
deriving DecidableEq

/-- Row of `transaction_log` (lines 71-79 of the source), with the raw
numeric values before display formatting. -/
structure TransactionRecord where
  dividendDate : Nat
  dividendPerShare : ℚ
  totalCashReceived : ℚ
  reinvestPrice : ℚ
  sharesPurchased : ℚ
  newShareTotal : ℚ
  positionValueAtReinvestPrice : ℚ
deriving DecidableEq

/-- Mutable simulation state threaded through the event loop:
`current_shares` and `transaction_log` of the source. -/
structure SimState where
  current_shares : ℚ
  transaction_log : List TransactionRecord
deriving DecidableEq

/-- Final summary values computed on lines 82-86 plus the ledger. -/
structure SimulationResult where
  finalShares : ℚ
  finalPrice : ℚ
  finalValue : ℚ
  initialInvestment : ℚ
  totalReturnAmount : ℚ
  totalReturnPercent : ℚ
  ledger : List TransactionRecord
deriving DecidableEq

/-- Result of a numpy.float64 value tracked exactly: either a rational or
one of the non-finite floats numpy produces silently on division by zero. -/
inductive NPFloat where
  | fin : ℚ → NPFloat
  | posInf
  | negInf
  | nan
deriving DecidableEq

/-- Numpy float division as the program really performs it on lines 68 and
86: never an exception — a zero divisor yields +inf, −inf or NaN (for 0/0)
together with only a RuntimeWarning, and the run continues. -/
def npdiv (a b : ℚ) : NPFloat :=
  if b = 0 then
    if a = 0 then .nan else if 0 < a then .posInf else .negInf
  else .fin (a / b)

/-- Division as tracked by the rational model.  On a nonzero divisor it is
exactly the program's division (`npdiv` gives `.fin` of the same quotient).
On a zero divisor the program's value is non-finite (see `npdiv`) and has no
rational representative, so the model returns `.error .nonfinite` to mark
that the execution leaves the model's domain; theorems about the run
functions therefore speak only for executions whose divisors are nonzero. -/
def pydiv (a b : ℚ) : Except SimError ℚ :=
  if b = 0 then .error .nonfinite else .ok (a / b)

/-- Multiplication by 100 as numpy performs it on line 86: finite values
scale, ±inf and NaN are preserved. -/
def npmul100 : NPFloat → NPFloat
  | .fin q => .fin (q * 100)
  | x => x

/-- Line 86 with exact numpy semantics:
`(total_return_dollars / initial_investment) * 100`, which is silently ±inf
or NaN when the initial investment is zero. -/
def total_return_pct_np (final_value initial_investment : ℚ) : NPFloat :=
  npmul100 (npdiv (final_value - initial_investment) initial_investment)

/-- Model of `div_date + BDay(1)` (line 47): the next business day strictly
after `d`, where weekday `d % 7` is 0 for Monday and 5/6 for the weekend. -/
def BDay1 (d : Nat) : Nat :=
  if (d + 1) % 7 = 5 then d + 3
  else if (d + 1) % 7 = 6 then d + 2
  else d + 1

/-- Bars selected by `hour_data.between_time('12:00', '13:00')` (line 63).
Pandas `between_time` is inclusive at both endpoints, so the window is the
closed interval [720, 780] in minutes. -/
def noonBars (hour_data : List HourBar) : List HourBar :=
  hour_data.filter (fun b => 720 ≤ b.ts && b.ts ≤ 780)

/-- Tier 1 of the price resolver: `hour_data.between_time(...)['Open'].iloc[0]`
(line 63).  `iloc[0]` raises on an empty selection, modelled by `none`. -/
def tier1Price (hour_data : List HourBar) : Option ℚ :=
  (noonBars hour_data).head?.map (·.Open)

/-- Tier 2: `hist_daily.loc[reinvest_date.normalize()]['Close']` guarded by
`reinvest_date in hist_daily.index` (line 65): the Close of the daily bar
whose date matches exactly, when one exists. -/
def exact_close (hist : List DailyBar) (d : Nat) : Option ℚ :=
  (hist.find? (fun b => b.date == d)).map (·.Close)

/-- Tier 3: `hist_daily.asof(reinvest_date)['Close']` (line 65): the Close of
the last daily bar dated at or before `d` (the daily index is ascending). -/
def asof_close (hist : List DailyBar) (d : Nat) : Option ℚ :=
  ((hist.filter (fun b => b.date ≤ d)).getLast?).map (·.Close)

/-- Reinvestment price resolution (lines 61-65): try the noon-window bar Open,
on any failure fall back to the exact daily Close, then to the as-of Close. -/
def noon_price (hour_data : List HourBar) (hist : List DailyBar) (d : Nat) :
    Option ℚ :=
  match tier1Price hour_data with
  | some p => some p
  | none =>
    match exact_close hist d with
    | some c => some c
    | none => asof_close hist d

/-- One iteration of the loop on lines 42-79 for one dividend event
`(div_date, div_amount)`: compute the cash, resolve the reinvestment date,
skip the event when that date is past `endDate`, otherwise resolve the price,
buy shares and append the ledger row. -/
def stepEvent (hist : List DailyBar) (intraday : Nat → List HourBar)
    (endDate : Nat) (st : SimState) (ev : Nat × ℚ) : Except SimError SimState :=
  let total_div_cash := ev.2 * st.current_shares
  let reinvest_date := BDay1 ev.1
  if endDate < reinvest_date then .ok st
  else
    match noon_price (intraday reinvest_date) hist reinvest_date with
    | none => .error .unresolvedPrice
    | some price =>
      match pydiv total_div_cash price with
      | .error e => .error e
      | .ok shares_bought =>
        let new_shares := st.current_shares + shares_bought
        .ok ⟨new_shares,
          st.transaction_log ++
            [⟨ev.1, ev.2, total_div_cash, price, shares_bought, new_shares,
              new_shares * price⟩]⟩

/-- The `for div_date, div_amount in dividends.items()` loop (line 42): events
processed strictly in order; the first error aborts the run. -/
def processDividends (hist : List DailyBar) (intraday : Nat → List HourBar)
    (endDate : Nat) : SimState → List (Nat × ℚ) → Except SimError SimState
  | st, [] => .ok st
  | st, ev :: rest =>
    match stepEvent hist intraday endDate st ev with
    | .error e => .error e
    | .ok st2 => processDividends hist intraday endDate st2 rest

/-- Dividend events extracted on line 35:
`hist_daily[hist_daily['Dividends'] > 0]['Dividends']` as (date, amount)
pairs in daily-bar order. -/
def dividendsOf (hist : List DailyBar) : List (Nat × ℚ) :=
  (hist.filter (fun b => 0 < b.Dividends)).map (fun b => (b.date, b.Dividends))

/-- The whole event loop starting from `initial_shares` and an empty log
(lines 38-79). -/
def runLoop (hist : List DailyBar) (intraday : Nat → List HourBar)
    (endDate : Nat) (initial_shares : ℚ) : Except SimError SimState :=
  processDividends hist intraday endDate ⟨initial_shares, []⟩ (dividendsOf hist)

/-- The full simulation (lines 27-86): empty history is a data error;
an `initial_price` of exactly 0 is replaced by the first bar Open (lines
31-32); after the loop the summary metrics are computed from the last daily
Close, the percent return through `pydiv` (so a zero initial investment,
whose real value would be a silent non-finite float, leaves the model's
domain instead — see `total_return_pct_np` for the faithful value there). -/
def runSimulation (hist : List DailyBar) (intraday : Nat → List HourBar)
    (endDate : Nat) (initial_shares initial_price : ℚ) :
    Except SimError SimulationResult :=
  match hist with
  | [] => .error .dataUnavailable
  | first :: rest =>
    let ip := if initial_price = 0 then first.Open else initial_price
    match runLoop (first :: rest) intraday endDate initial_shares with
    | .error e => .error e
    | .ok st =>
      let final_price := ((first :: rest).getLast (List.cons_ne_nil _ _)).Close
      let final_value := st.current_shares * final_price
      let initial_investment := initial_shares * ip
      let total_return_dollars := final_value - initial_investment
      match pydiv total_return_dollars initial_investment with
      | .error e => .error e
      | .ok r =>
        .ok { finalShares := st.current_shares
              finalPrice := final_price
              finalValue := final_value
              initialInvestment := initial_investment
              totalReturnAmount := total_return_dollars
              totalReturnPercent := r * 100
              ledger := st.transaction_log }

/-- Daily bars of the end-to-end scenario: 2024-01-02 (day 1, Tuesday),
2024-01-05 (day 4, Friday, dividend 1.00), 2024-01-08 (day 7, Monday). -/
def histC1 : List DailyBar :=
  [⟨1, 80, 81, 0⟩, ⟨4, 82, 83, 1⟩, ⟨7, 84, 85, 0⟩]

/-- Provider with no intraday data for any day. -/
def noIntraday : Nat → List HourBar := fun _ => []

/-- C1: end-to-end scenario.  With the three daily bars of `histC1`,
initial shares 100, initial price 80, evaluation end day 7 (2024-01-08) and
no intraday data, the dividend of 2024-01-05 pays 100 in cash, is reinvested
on 2024-01-08 at the exact daily close 85 (tier 2), buying 20/17 ≈ 1.17647
shares, for final shares 1720/17 ≈ 101.17647, final value exactly 8600,
initial investment 8000, total return 600 and percent return 15/2 = 7.50. -/
theorem C1_end_to_end :
    runSimulation histC1 noIntraday 7 100 80 =
      .ok { finalShares := 1720 / 17
            finalPrice := 85
            finalValue := 8600
            initialInvestment := 8000
            totalReturnAmount := 600
            totalReturnPercent := 15 / 2
            ledger := [{ dividendDate := 4
                         dividendPerShare := 1
                         totalCashReceived := 100
                         reinvestPrice := 85
                         sharesPurchased := 20 / 17
                         newShareTotal := 1720 / 17
                         positionValueAtReinvestPrice := 8600 }] } := by
  norm_num [runSimulation, runLoop, dividendsOf, processDividends, stepEvent,
    noon_price, tier1Price, noonBars, exact_close, asof_close, pydiv, BDay1,
    histC1, noIntraday]

/-- C7: an event whose resolved reinvestment date is strictly after the
evaluation end date is skipped entirely (line 50): the state — both
`current_shares` and `transaction_log` — is returned unchanged and no error
is raised. -/
theorem C7_skip_after_end (hist : List DailyBar) (intraday : Nat → List HourBar)
    (endDate : Nat) (st : SimState) (d : Nat) (a : ℚ)
    (h : endDate < BDay1 d) :
    stepEvent hist intraday endDate st (d, a) = .ok st := by
  unfold stepEvent
  simp [h]

/-- Witness for C7 at a concrete input: a Monday (day 0) dividend resolves to
day 1, past the end date 0, so the event leaves the state untouched. -/
theorem C7_skip_after_end_witness :
    stepEvent [] noIntraday 0 ⟨1, []⟩ (0, 1) = .ok ⟨1, []⟩ :=
  C7_skip_after_end [] noIntraday 0 ⟨1, []⟩ 0 1 (by decide)

/-- C8: `BDay1` maps every day to the next business day strictly after it:
a Friday (weekday 4) maps to the following Monday three days later, a
Monday-Thursday maps to the next calendar day, a Saturday maps two days and a
Sunday one day forward to Monday, the result is never a Saturday (weekday 5)
or Sunday (weekday 6), and it is always 1 to 3 calendar days after the
input. -/
theorem C8_reinvest_date (d : Nat) :
    (d % 7 = 4 → BDay1 d = d + 3 ∧ BDay1 d % 7 = 0) ∧
    (d % 7 < 4 → BDay1 d = d + 1) ∧
    (d % 7 = 5 → BDay1 d = d + 2 ∧ BDay1 d % 7 = 0) ∧
    (d % 7 = 6 → BDay1 d = d + 1 ∧ BDay1 d % 7 = 0) ∧
    BDay1 d % 7 ≠ 5 ∧ BDay1 d % 7 ≠ 6 ∧
    d + 1 ≤ BDay1 d ∧ BDay1 d ≤ d + 3 := by
  unfold BDay1
  split_ifs <;> omega

/-- Witness for C8 at a concrete input: day 4 is a Friday and resolves to
day 7, the following Monday. -/
theorem C8_reinvest_date_witness : BDay1 4 = 4 + 3 ∧ BDay1 4 % 7 = 0 :=
  (C8_reinvest_date 4).1 (by decide)

/-- C2 counterexample: pandas `between_time('12:00', '13:00')` is inclusive
at both endpoints, so a bar stamped exactly 13:00 (minute 780) does qualify:
with an intraday series holding only that bar, its Open 90 is used even
though an exact daily Close 85 exists for the date, contradicting the
half-open-interval part of the claim. -/
theorem C2_thirteen_bar_used :
    noon_price [⟨780, 90⟩] [⟨3, 50, 85, 0⟩] 3 = some 90 ∧
    exact_close [⟨3, 50, 85, 0⟩] 3 = some 85 := by
  constructor
  · norm_num [noon_price, tier1Price, noonBars]
  · norm_num [exact_close]

/-- C2 as amended: the noon window is the closed interval [12:00, 13:00].
Whenever the intraday series has at least one bar in that window, the first
such bar lies in the window and its Open is the resolved price, whatever
daily bars exist — the intraday tier is preferred over any daily close. -/
theorem C2_noon_window (hour_data : List HourBar) (hist : List DailyBar)
    (d : Nat) (b : HourBar) (rest : List HourBar)
    (h : noonBars hour_data = b :: rest) :
    720 ≤ b.ts ∧ b.ts ≤ 780 ∧ noon_price hour_data hist d = some b.Open := by
  have hb : b ∈ noonBars hour_data := by
    rw [h]; exact List.mem_cons_self b rest
  have hwin : 720 ≤ b.ts ∧ b.ts ≤ 780 := by
    simp only [noonBars, List.mem_filter, Bool.and_eq_true, decide_eq_true_eq]
      at hb
    exact hb.2
  refine ⟨hwin.1, hwin.2, ?_⟩
  unfold noon_price tier1Price
  rw [h]
  rfl

/-- Witness for C2: a single 12:30 bar with Open 42 is in the window and its
Open is resolved even though no daily data exists. -/
theorem C2_noon_window_witness : noon_price [⟨750, 42⟩] [] 0 = some 42 :=
  (C2_noon_window [⟨750, 42⟩] [] 0 ⟨750, 42⟩ [] (by norm_num [noonBars])).2.2

/-- C5: when tier 1 produces nothing (no bar in the noon window), the
resolver does not fail: it returns the exact daily Close when a daily bar
matches the date, otherwise the as-of Close, and it always produces some
price as soon as any daily bar is dated at or before the lookup date. -/
theorem C5_fallback_chain (hour_data : List HourBar) (hist : List DailyBar)
    (d : Nat) (h1 : noonBars hour_data = []) :
    (∀ c, exact_close hist d = some c → noon_price hour_data hist d = some c) ∧
    (exact_close hist d = none →
      noon_price hour_data hist d = asof_close hist d) ∧
    (∀ b ∈ hist, b.date ≤ d → ∃ p, noon_price hour_data hist d = some p) := by
  have ht : tier1Price hour_data = none := by
    simp [tier1Price, h1]
  refine ⟨?_, ?_, ?_⟩
  · intro c hc
    unfold noon_price
    rw [ht, hc]
  · intro hc
    unfold noon_price
    rw [ht, hc]
  · intro b hb hbd
    unfold noon_price
    rw [ht]
    cases he : exact_close hist d with
    | some c => exact ⟨c, rfl⟩
    | none =>
      have hmem : b ∈ hist.filter (fun x => x.date ≤ d) :=
        List.mem_filter.mpr ⟨hb, by simpa using hbd⟩
      cases hg : (hist.filter (fun x => x.date ≤ d)).getLast? with
      | some q => exact ⟨q.Close, by simp [asof_close, hg]⟩
      | none =>
        rw [List.getLast?_eq_none_iff] at hg
        rw [hg] at hmem
        exact absurd hmem (List.not_mem_nil b)

/-- Witness for C5: no intraday bars and a single daily bar on day 0 looked
up on day 2 — no exact match, so the as-of close is returned. -/
theorem C5_fallback_chain_witness :
    noon_price [] [⟨0, 1, 7, 0⟩] 2 = asof_close [⟨0, 1, 7, 0⟩] 2 :=
  (C5_fallback_chain [] [⟨0, 1, 7, 0⟩] 2 rfl).2.1 rfl

/-- C9: `iloc[0]` takes the first bar of the noon-window selection, so with
several qualifying bars the resolved price is the Open of the first one;
since the provider returns bars in ascending timestamp order, that is the
earliest-timestamped qualifying bar, whose timestamp is minimal among all
bars of the window. -/
theorem C9_first_noon_bar (hour_data : List HourBar) (hist : List DailyBar)
    (d : Nat) (b : HourBar) (rest : List HourBar)
    (hq : noonBars hour_data = b :: rest)
    (hsorted : hour_data.Pairwise (fun x y => x.ts ≤ y.ts)) :
    noon_price hour_data hist d = some b.Open ∧
    ∀ x ∈ noonBars hour_data, b.ts ≤ x.ts := by
  constructor
  · unfold noon_price tier1Price
    rw [hq]
    rfl
  · have hp : (noonBars hour_data).Pairwise (fun x y => x.ts ≤ y.ts) := by
      exact List.Pairwise.sublist (List.filter_sublist hour_data) hsorted
    rw [hq] at hp
    intro x hx
    rw [hq] at hx
    rcases List.mem_cons.mp hx with hx | hx
    · rw [hx]
    · exact (List.pairwise_cons.mp hp).1 x hx

/-- Witness for C9: bars at 11:40, 12:10 and 12:40 — the noon window keeps
the last two and the 12:10 bar Open 4 is the resolved price. -/
theorem C9_first_noon_bar_witness :
    noon_price [⟨700, 3⟩, ⟨730, 4⟩, ⟨760, 5⟩] [] 5 = some 4 :=
  (C9_first_noon_bar [⟨700, 3⟩, ⟨730, 4⟩, ⟨760, 5⟩] [] 5 ⟨730, 4⟩ [⟨760, 5⟩]
    (by norm_num [noonBars]) (by norm_num)).1

/-- Every price the resolver returns comes from an intraday bar Open or a
daily bar Close, so it is positive when all of those are positive. -/
theorem noon_price_pos (hour_data : List HourBar) (hist : List DailyBar)
    (d : Nat) (p : ℚ)
    (hO : ∀ b ∈ hour_data, 0 < b.Open)
    (hC : ∀ b ∈ hist, 0 < b.Close)
    (h : noon_price hour_data hist d = some p) : 0 < p := by
  unfold noon_price at h
  cases ht : tier1Price hour_data with
  | some q =>
    rw [ht] at h
    obtain rfl : q = p := by simpa using h
    unfold tier1Price at ht
    cases hq : noonBars hour_data with
    | nil => rw [hq] at ht; simp at ht
    | cons b rest =>
      rw [hq] at ht
      simp only [List.head?_cons, Option.map_some'] at ht
      obtain rfl : b.Open = q := by simpa using ht
      have hb : b ∈ noonBars hour_data := by
        rw [hq]; exact List.mem_cons_self b rest
      exact hO b (List.mem_of_mem_filter hb)
  | none =>
    rw [ht] at h
    cases he : exact_close hist d with
    | some c =>
      rw [he] at h
      obtain rfl : c = p := by simpa using h
      unfold exact_close at he
      cases hf : hist.find? (fun b => b.date == d) with
      | none => rw [hf] at he; simp at he
      | some b =>
        rw [hf] at he
        simp only [Option.map_some'] at he
        obtain rfl : b.Close = c := by simpa using he
        exact hC b (List.mem_of_find?_eq_some hf)
    | none =>
      rw [he] at h
      unfold asof_close at h
      cases hg : (hist.filter (fun b => b.date ≤ d)).getLast? with
      | none => rw [hg] at h; simp at h
      | some b =>
        rw [hg] at h
        obtain rfl : b.Close = p := by simpa using h
        have hb : b ∈ hist.filter (fun b => b.date ≤ d) :=
          List.mem_of_mem_getLast? hg
        exact hC b (List.mem_of_mem_filter hb)

/-- One loop iteration never decreases the share balance when the event
amount and the incoming balance are nonnegative and all provider prices are
positive. -/
theorem stepEvent_le (hist : List DailyBar) (intr : Nat → List HourBar)
    (endDate : Nat) (st : SimState) (ev : Nat × ℚ) (st2 : SimState)
    (hC : ∀ b ∈ hist, 0 < b.Close)
    (hO : ∀ day, ∀ b ∈ intr day, 0 < b.Open)
    (hst : 0 ≤ st.current_shares) (ha : 0 ≤ ev.2)
    (h : stepEvent hist intr endDate st ev = .ok st2) :
    st.current_shares ≤ st2.current_shares := by
  by_cases hd : endDate < BDay1 ev.1
  · simp only [stepEvent, if_pos hd] at h
    obtain rfl : st = st2 := by simpa using h
    exact le_refl _
  · cases hp : noon_price (intr (BDay1 ev.1)) hist (BDay1 ev.1) with
    | none => simp [stepEvent, if_neg hd, hp] at h
    | some price =>
      have hpos : 0 < price := noon_price_pos _ _ _ _ (hO _) hC hp
      simp only [stepEvent, if_neg hd, hp, pydiv, if_neg (ne_of_gt hpos),
        Except.ok.injEq] at h
      rw [← h]
      exact le_add_of_nonneg_right (div_nonneg (mul_nonneg ha hst) hpos.le)

/-- Running the loop over any event list with nonnegative amounts, from a
nonnegative balance and positive provider prices, never decreases the share
balance. -/
theorem processDividends_le (hist : List DailyBar) (intr : Nat → List HourBar)
    (endDate : Nat)
    (hC : ∀ b ∈ hist, 0 < b.Close)
    (hO : ∀ day, ∀ b ∈ intr day, 0 < b.Open) :
    ∀ evs st st2, (∀ ev ∈ evs, 0 ≤ ev.2) → 0 ≤ st.current_shares →
      processDividends hist intr endDate st evs = .ok st2 →
      st.current_shares ≤ st2.current_shares := by
  intro evs
  induction evs with
  | nil =>
    intro st st2 _ _ h
    obtain rfl : st = st2 := by simpa [processDividends] using h
    exact le_refl _
  | cons ev rest ih =>
    intro st st2 hpos hst h
    simp only [processDividends] at h
    cases hs : stepEvent hist intr endDate st ev with
    | error e => rw [hs] at h; simp at h
    | ok stm =>
      rw [hs] at h
      have h1 : st.current_shares ≤ stm.current_shares :=
        stepEvent_le hist intr endDate st ev stm hC hO hst
          (hpos ev (List.mem_cons_self ev rest)) hs
      have h2 : stm.current_shares ≤ st2.current_shares :=
        ih stm st2 (fun e he => hpos e (List.mem_cons_of_mem ev he))
          (le_trans hst h1) h
      exact le_trans h1 h2

/-- Events extracted from the daily history carry nonnegative amounts, since
line 35 keeps only rows with Dividends strictly positive. -/
theorem dividendsOf_amount_nonneg (hist : List DailyBar) :
    ∀ ev ∈ dividendsOf hist, 0 ≤ ev.2 := by
  intro ev hev
  simp only [dividendsOf, List.mem_map] at hev
  obtain ⟨b, hb, rfl⟩ := hev
  have hpos := (List.mem_filter.mp hb).2
  simp only [decide_eq_true_eq] at hpos
  exact hpos.le

/-- C4 counterexample: a provider can return a negative intraday price
(bad data), and then a dividend event strictly decreases the share count:
5 shares receive 10 of cash, reinvested at price −4, buying −5/2 shares and
leaving 5/2 < 5 shares after the loop. -/
theorem C4_shares_can_decrease :
    runLoop [⟨0, 20, 20, 2⟩, ⟨1, 20, 20, 0⟩]
        (fun day => if day = 1 then [⟨750, -4⟩] else []) 1 5 =
      .ok ⟨5 / 2, [⟨0, 2, 10, -4, -(5 / 2), 5 / 2, -10⟩]⟩ ∧
    (5 / 2 : ℚ) < 5 := by
  constructor
  · norm_num [runLoop, dividendsOf, processDividends, stepEvent, noon_price,
      tier1Price, noonBars, exact_close, asof_close, pydiv, BDay1]
  · norm_num

/-- C4 as amended: provided every daily Close and every intraday Open the
provider can serve is positive and the initial share count is nonnegative,
each loop iteration leaves `current_shares` no smaller (dividend amounts are
nonnegative), and the share count after the whole loop is at least the
initial share count. -/
theorem C4_shares_monotone (hist : List DailyBar) (intr : Nat → List HourBar)
    (endDate : Nat) (s : ℚ)
    (hs : 0 ≤ s)
    (hC : ∀ b ∈ hist, 0 < b.Close)
    (hO : ∀ day, ∀ b ∈ intr day, 0 < b.Open) :
    (∀ st ev st2, 0 ≤ st.current_shares → 0 ≤ ev.2 →
        stepEvent hist intr endDate st ev = .ok st2 →
        st.current_shares ≤ st2.current_shares) ∧
    (∀ st2, runLoop hist intr endDate s = .ok st2 →
        s ≤ st2.current_shares) := by
  constructor
  · intro st ev st2 h1 h2 h3
    exact stepEvent_le hist intr endDate st ev st2 hC hO h1 h2 h3
  · intro st2 h
    exact processDividends_le hist intr endDate hC hO (dividendsOf hist)
      ⟨s, []⟩ st2 (dividendsOf_amount_nonneg hist) hs h

/-- Witness for C4: one dividend of 1 per share on day 0 (Monday), reinvested
on day 1 at the exact daily close 2, growing 1 share to 3/2 ≥ 1. -/
theorem C4_shares_monotone_witness : (1 : ℚ) ≤ 3 / 2 :=
  (C4_shares_monotone [⟨0, 2, 2, 1⟩, ⟨1, 2, 2, 0⟩] noIntraday 1 1
      (by norm_num) (by intro b hb; fin_cases hb <;> norm_num)
      (by intro day b hb; exact absurd hb (List.not_mem_nil b))).2
    ⟨3 / 2, [⟨0, 1, 1, 2, 1 / 2, 3 / 2, 3⟩]⟩
    (by norm_num [runLoop, dividendsOf, processDividends, stepEvent,
      noon_price, tier1Price, noonBars, exact_close, asof_close, pydiv,
      BDay1, noIntraday])

/-- C3 is a code bug: the spec requires a surfaced DivisionError for any
reinvestment price ≤ 0, but line 68 divides numpy.float64 scalars, which
never raise.  At price 0 the program silently computes +inf shares bought
(`npdiv 10 0`), at price −5 it silently buys −2 shares (`npdiv 10 (-5)`),
and the full run with a −5 intraday price completes normally — negative
shares in the ledger and all — instead of aborting. -/
theorem C3_no_division_error :
    npdiv 10 0 = NPFloat.posInf ∧
    npdiv 10 (-5) = NPFloat.fin (-2) ∧
    runSimulation [⟨0, 10, 10, 1⟩, ⟨1, 9, 9, 0⟩]
        (fun day => if day = 1 then [⟨720, -5⟩] else []) 1 10 10 =
      .ok { finalShares := 8
            finalPrice := 9
            finalValue := 72
            initialInvestment := 100
            totalReturnAmount := -28
            totalReturnPercent := -28
            ledger := [⟨0, 1, 10, -5, -2, 8, -40⟩] } := by
  refine ⟨by norm_num [npdiv], by norm_num [npdiv], ?_⟩
  norm_num [runSimulation, runLoop, dividendsOf, processDividends, stepEvent,
    noon_price, tier1Price, noonBars, exact_close, asof_close, pydiv, BDay1]

/-- C6 is a code bug: line 86 divides numpy.float64 scalars, which never
raise.  With 3 initial shares, a caller-supplied price of 0 and a first bar
whose Open is 0, the resolved initial price is 0 (line 32), the loop leaves
the 3 shares untouched, the final value is 3 × 5 = 15 and the initial
investment is 3 × 0 = 0; line 86 then computes 15 / 0 × 100, which is
silently +inf (only a RuntimeWarning), and a run with 0 initial shares hits
0 / 0 × 100 = NaN — the claim's forbidden outcomes, with no error
signalled. -/
theorem C6_silent_infinity :
    runLoop [⟨0, 0, 5, 0⟩] noIntraday 5 3 = .ok ⟨3, []⟩ ∧
    total_return_pct_np 15 0 = NPFloat.posInf ∧
    total_return_pct_np 0 0 = NPFloat.nan := by
  refine ⟨?_, by norm_num [total_return_pct_np, npdiv, npmul100],
    by norm_num [total_return_pct_np, npdiv, npmul100]⟩
  norm_num [runLoop, dividendsOf, processDividends]

/-- C10: the first-bar-Open fallback for the initial price fires only when
the caller passes exactly 0; any nonzero price, a negative one included, is
used as-is, and with a negative price and positive share count the run
completes without error and reports a negative initial investment. -/
theorem C10_initial_price (first : DailyBar) (rest : List DailyBar)
    (intr : Nat → List HourBar) (endDate : Nat) (s p : ℚ) :
    (p = 0 → ∀ res,
        runSimulation (first :: rest) intr endDate s p = .ok res →
        res.initialInvestment = s * first.Open) ∧
    (p ≠ 0 → ∀ res,
        runSimulation (first :: rest) intr endDate s p = .ok res →
        res.initialInvestment = s * p) ∧
    (p < 0 → 0 < s → ∀ st,
        runLoop (first :: rest) intr endDate s = .ok st →
        ∃ res, runSimulation (first :: rest) intr endDate s p = .ok res ∧
          res.initialInvestment = s * p ∧ res.initialInvestment < 0) := by
  refine ⟨?_, ?_, ?_⟩
  · intro hp0 res h
    cases hr : runLoop (first :: rest) intr endDate s with
    | error e => simp [runSimulation, hr] at h
    | ok st =>
      by_cases hz : s * (if p = 0 then first.Open else p) = 0
      · simp [runSimulation, hr, pydiv, hz] at h
      · simp only [runSimulation, hr, pydiv, if_neg hz,
          Except.ok.injEq] at h
        rw [← h]
        simp [hp0]
  · intro hp0 res h
    cases hr : runLoop (first :: rest) intr endDate s with
    | error e => simp [runSimulation, hr] at h
    | ok st =>
      by_cases hz : s * (if p = 0 then first.Open else p) = 0
      · simp [runSimulation, hr, pydiv, hz] at h
      · simp only [runSimulation, hr, pydiv, if_neg hz,
          Except.ok.injEq] at h
        rw [← h]
        simp [hp0]
  · intro hneg hs st hr
    have hlt : s * p < 0 := mul_neg_of_pos_of_neg hs hneg
    have hip : (if p = 0 then first.Open else p) = p := if_neg (ne_of_lt hneg)
    have hz : s * p ≠ 0 := ne_of_lt hlt
    cases hrs : runSimulation (first :: rest) intr endDate s p with
    | error e => simp [runSimulation, hr, pydiv, hip, hz] at hrs
    | ok res =>
      have hri : res.initialInvestment = s * p := by
        simp only [runSimulation, hr, pydiv, hip, if_neg hz,
          Except.ok.injEq] at hrs
        rw [← hrs]
      exact ⟨res, rfl, hri, hri ▸ hlt⟩

/-- Witness for C10: price −3 with 2 initial shares is used as-is and the
run succeeds with initial investment −6 < 0. -/
theorem C10_initial_price_witness :
    ∃ res, runSimulation [⟨0, 10, 12, 0⟩] noIntraday 3 2 (-3) = .ok res ∧
      res.initialInvestment = 2 * (-3) ∧ res.initialInvestment < 0 :=
  (C10_initial_price ⟨0, 10, 12, 0⟩ [] noIntraday 3 2 (-3)).2.2
    (by norm_num) (by norm_num) ⟨2, []⟩
    (by norm_num [runLoop, dividendsOf, processDividends])

end Drip
